import Mathlib

/-!
# hap: the enrollment / verification reducer of `src/main.go`

A shallow embedding of `model.Update`, `handleEnter`, `handleBackspace` and
`handleTyping`, followed by the properties of the workflow.

Modelling conventions

* A Go `string` is an immutable sequence of bytes, `len` is the number of
  bytes and `s[:len(s)-1]` drops the last byte: `Str := List UInt8`.
* A Go `int` is 64 bits wide; every arithmetic step the reducer performs on an
  `int` (`selectedIdx--`, `selectedIdx++`, `len(accounts)-1`, `30 - x % 30`)
  stays far inside that range, so `Int` is used without wrap-around.
* A slice access `xs[i]` panics when `i` is out of range: the reducer returns
  `Option`, and `none` is the run-time panic.
* The library calls `totp.Generate`, `totp.GenerateCode` and `time.Now` are not
  part of the repository: they are the fields of `Env`, one environment per
  handled event.
-/

namespace Hap

/-- A Go string: a sequence of bytes. -/
abbrev Str := List UInt8

/-- The bytes (UTF-8) of a string literal of the source. -/
def str (s : String) : Str := s.toList.flatMap String.utf8EncodeChar

/-- Account represents a 2FA account. -/
structure Account where
  Name : Str
  Issuer : Str
  Secret : Str
  CurrentCode : Str
deriving DecidableEq

/-- Model represents the application state.
`step`: 0 account list, 1 add account name, 2 add account issuer, 3 show QR,
4 verify code. -/
structure model where
  accounts : List Account
  selectedIdx : Int
  qrCode : Str
  newAccountName : Str
  newAccountIssuer : Str
  inputCode : Str
  validCode : Str
  status : Str
  countdown : Int
  step : Int
deriving DecidableEq

/-- The messages `Update` receives: a key (carrying `msg.String()`), a tick, a
verification result, or any other message of the runtime. -/
inductive Msg where
  | KeyMsg (s : Str)
  | tickMsg
  | verifyMsg (b : Bool)
  | other
deriving DecidableEq

/-- The commands `Update` returns. -/
inductive Cmd where
  | nil
  | Quit
  | tickCmd
  | verifyCmd (secret code : Str)
deriving DecidableEq

/-- The hash algorithms of `otp.Algorithm`. -/
inductive Algorithm where
  | AlgorithmSHA1
  | AlgorithmSHA256
  | AlgorithmSHA512
  | AlgorithmMD5
deriving DecidableEq

/-- The fields of `totp.GenerateOpts` that the source sets. -/
structure GenerateOpts where
  Issuer : Str
  AccountName : Str
  SecretSize : Nat
  Algorithm : Algorithm
  Digits : Nat
  Period : Nat
deriving DecidableEq

/-- What the source reads of an `*otp.Key`: `key.Secret()` and `key.URL()`. -/
structure Key where
  Secret : Str
  URL : Str
deriving DecidableEq

/-- The outside world during the handling of one event.
`now k` is the Unix time of the `k`-th evaluation of `time.Now()` (counted
from 0); `GenerateCode secret t` is the pair `(code, err)` returned by
`totp.GenerateCode`, with `err = none` for a nil error; `Generate opts` is the
result of `totp.Generate`, either the error text or the key. -/
structure Env where
  now : Nat → Int
  GenerateCode : Str → Int → Str × Option Str
  Generate : GenerateOpts → Except Str Key

/-- The slice access `xs[i]`: `none` when `i` is out of range. -/
def index {α : Type} (xs : List α) (i : Int) : Option α :=
  if i < 0 then none else xs[i.toNat]?

/-- The assignment `accounts[i].CurrentCode = code`. -/
def setCurrentCode (xs : List Account) (i : Int) (code : Str) : Option (List Account) :=
  match index xs i with
  | none => none
  | some a => some (xs.set i.toNat { a with CurrentCode := code })

/-- The value `model{}` that `main` starts the program with. -/
def initModel : model :=
  { accounts := [], selectedIdx := 0, qrCode := [], newAccountName := [],
    newAccountIssuer := [], inputCode := [], validCode := [], status := [],
    countdown := 0, step := 0 }

/-- The expression `30 - (int(time.Now().Unix()) % 30)`; the `%` of Go truncates
toward zero. -/
def countdownSeconds (t : Int) : Int := 30 - Int.tmod t 30

/-- The loop `for i := range m.accounts` of the tick case: account number `i`
is refreshed with the clock reading number `k + i`. -/
def refreshAll (env : Env) : List Account → Nat → List Account
  | [], _ => []
  | a :: rest, k =>
    let r := env.GenerateCode a.Secret (env.now k)
    (if r.2 = none then { a with CurrentCode := r.1 } else a) :: refreshAll env rest (k + 1)

/-- Removes the last byte of a non-empty string: `s[:len(s)-1]`. -/
def dropLastByte (s : Str) : Str := s.take (s.length - 1)

/-- Function handleBackspace handles backspace key presses. -/
def handleBackspace (m : model) : model :=
  if m.step = 1 then
    if m.newAccountName.length > 0 then
      { m with newAccountName := dropLastByte m.newAccountName }
    else m
  else if m.step = 2 then
    if m.newAccountIssuer.length > 0 then
      { m with newAccountIssuer := dropLastByte m.newAccountIssuer }
    else m
  else if m.step = 4 then
    if m.inputCode.length > 0 then
      { m with inputCode := dropLastByte m.inputCode }
    else m
  else m

/-- Function handleTyping handles text input based on current step. -/
def handleTyping (m : model) (key : Str) : model :=
  if key.length ≠ 1 then m
  else if m.step = 1 then { m with newAccountName := m.newAccountName ++ key }
  else if m.step = 2 then { m with newAccountIssuer := m.newAccountIssuer ++ key }
  else if m.step = 4 then
    if m.inputCode.length < 6 then { m with inputCode := m.inputCode ++ key } else m
  else m

/-- Function handleEnter handles enter key presses based on current step. -/
def handleEnter (env : Env) (m : model) : Option (model × Cmd) :=
  if m.step = 0 then
    if m.accounts.length > 0 then
      let m1 := { m with step := 4,
                         status := str "Enter the 6-digit code from your authenticator app" }
      match index m1.accounts m1.selectedIdx with
      | none => none
      | some acc =>
        let r := env.GenerateCode acc.Secret (env.now 0)
        if r.2 = none then some ({ m1 with validCode := r.1 }, Cmd.nil)
        else some (m1, Cmd.nil)
    else some (m, Cmd.nil)
  else if m.step = 1 then
    if m.newAccountName ≠ [] then
      some ({ m with step := 2, status := str "Enter issuer name (e.g., Google, GitHub)" },
            Cmd.nil)
    else some (m, Cmd.nil)
  else if m.step = 2 then
    if m.newAccountIssuer ≠ [] then
      match env.Generate { Issuer := m.newAccountIssuer, AccountName := m.newAccountName,
                           SecretSize := 16, Algorithm := Algorithm.AlgorithmSHA1,
                           Digits := 6, Period := 30 } with
      | Except.error err =>
        some ({ m with status := str "Error generating secret: " ++ err }, Cmd.nil)
      | Except.ok key =>
        let newAcc : Account :=
          { Name := m.newAccountName, Issuer := m.newAccountIssuer, Secret := key.Secret,
            CurrentCode := [] }
        let accounts := m.accounts ++ [newAcc]
        let selectedIdx : Int := (accounts.length : Int) - 1
        let code := (env.GenerateCode key.Secret (env.now 0)).1
        match setCurrentCode accounts selectedIdx code with
        | none => none
        | some accounts2 =>
          some ({ m with qrCode := key.URL, accounts := accounts2, selectedIdx := selectedIdx,
                         step := 3,
                         status := str "Scan the QR code with your authenticator app",
                         validCode := code }, Cmd.nil)
    else some (m, Cmd.nil)
  else if m.step = 3 then
    some ({ m with step := 4,
                   status := str "Enter the 6-digit code from your authenticator app" },
          Cmd.nil)
  else if m.step = 4 then
    match index m.accounts m.selectedIdx with
    | none => none
    | some acc => some (m, Cmd.verifyCmd acc.Secret m.inputCode)
  else some (m, Cmd.nil)

/-- The `tea.KeyMsg` case of `Update`, for the keys other than "q", "esc" and
"enter": the model after the inner `switch`. -/
def updateKey (m : model) (s : Str) : model :=
  if s = str "up" then
    if m.step = 0 ∧ m.accounts.length > 0 then
      if m.selectedIdx > 0 then { m with selectedIdx := m.selectedIdx - 1 } else m
    else m
  else if s = str "down" ∨ s = str "j" then
    if m.step = 0 ∧ m.accounts.length > 0 then
      if m.selectedIdx < (m.accounts.length : Int) - 1 then
        { m with selectedIdx := m.selectedIdx + 1 }
      else m
    else m
  else if s = str "a" ∨ s = str "A" then
    if m.step = 0 then
      { m with step := 1, newAccountName := [], newAccountIssuer := [],
               status := str "Enter account name (e.g., user@example.com)" }
    else handleTyping m s
  else if s = str "k" then
    if m.step = 0 then
      if m.accounts.length > 0 ∧ m.selectedIdx > 0 then
        { m with selectedIdx := m.selectedIdx - 1 }
      else m
    else handleTyping m s
  else if s = str "backspace" then handleBackspace m
  else handleTyping m s

/-- The `tickMsg` case of `Update`. -/
def updateTick (env : Env) (m : model) : Option (model × Cmd) :=
  let m1 := { m with countdown := countdownSeconds (env.now 0) }
  let m2 := { m1 with accounts := refreshAll env m1.accounts 1 }
  if m2.step = 3 ∨ m2.step = 4 then
    match index m2.accounts m2.selectedIdx with
    | none => none
    | some acc =>
      let r := env.GenerateCode acc.Secret (env.now (m.accounts.length + 1))
      if r.2 = none then some ({ m2 with validCode := r.1 }, Cmd.tickCmd)
      else some (m2, Cmd.tickCmd)
  else some (m2, Cmd.tickCmd)

/-- Update handles messages and updates the model; `none` is a panic. -/
def Update (env : Env) (m : model) (msg : Msg) : Option (model × Cmd) :=
  match msg with
  | Msg.KeyMsg s =>
    if s = str "q" ∨ s = str "esc" then
      if m.step > 0 then some ({ m with step := 0, status := [] }, Cmd.nil)
      else some (m, Cmd.Quit)
    else if s = str "enter" then handleEnter env m
    else some (updateKey m s, Cmd.nil)
  | Msg.tickMsg => updateTick env m
  | Msg.verifyMsg b =>
    some ({ m with
              status := if b then str "✅ Code verified successfully!"
                        else str "❌ Invalid code, please try again",
              inputCode := [] }, Cmd.nil)
  | Msg.other => some (m, Cmd.nil)

/-- The states the program can be in: `model{}` and every state `Update`
returns from a reachable state, for any message in any environment. -/
inductive Reachable : model → Prop where
  | init : Reachable initModel
  | step (env : Env) (m : model) (msg : Msg) (m2 : model) (c : Cmd) :
      Reachable m → Update env m msg = some (m2, c) → Reachable m2

/-- Feeds a list of messages to `Update`, each paired with its environment. -/
def run : model → List (Env × Msg) → Option model
  | m, [] => some m
  | m, (env, msg) :: rest =>
    match Update env m msg with
    | none => none
    | some (m2, _) => run m2 rest

/-- The projection of an account to the fields that identify it. -/
def identity (a : Account) : Str × Str × Str := (a.Name, a.Issuer, a.Secret)

/-- The index `selectedIdx` is a valid position of the account list. -/
def SelInBounds (m : model) : Prop :=
  0 ≤ m.selectedIdx ∧ m.selectedIdx < (m.accounts.length : Int)

/-- The invariant of the data model: a non-empty list has a valid selection. -/
def SelValid (m : model) : Prop := m.accounts ≠ [] → SelInBounds m

/-- The shape of a workflow step that keeps the accounts. -/
def KeepsAccounts (m m2 : model) : Prop :=
  m2.accounts.map identity = m.accounts.map identity ∧
  (SelValid m → SelValid m2) ∧
  (m2.step = m.step ∨ m2.step = 0 ∨ m2.step = 1 ∨ m2.step = 2 ∨
    (m2.step = 4 ∧ (m.step = 3 ∨ m.accounts ≠ [])))

/-- The shape of the workflow step that enrolls an account. -/
def AddsAccount (m m2 : model) : Prop :=
  ∃ a : Account, m2.accounts = m.accounts ++ [a] ∧
    m2.selectedIdx = (m.accounts.length : Int) ∧ m2.step = 3

/-- The invariant of the reachable states: the selection is valid, and the
steps 3 and 4 occur only with a non-empty account list. -/
def Inv (m : model) : Prop :=
  SelValid m ∧ ((m.step = 3 ∨ m.step = 4) → m.accounts ≠ [])

/-- A test environment: the clock stands at `t`, codes are the fixed string
"123456", and key generation returns the given result. -/
def testEnv (t : Int) (gen : Except Str Key) : Env :=
  { now := fun _ => t, GenerateCode := fun _ _ => (str "123456", none),
    Generate := fun _ => gen }

/-- A key as `totp.Generate` could return it for the enrollment of the
examples. -/
def testKey : Key :=
  { Secret := str "JBSWY3DPEHPK3PXPJBSWY3DPEH",
    URL := str "otpauth://totp/GitHub:alice@example.com?algorithm=SHA1&digits=6&issuer=GitHub&period=30&secret=JBSWY3DPEHPK3PXPJBSWY3DPEH" }

/-- A key press in the test environment whose key generation succeeds. -/
def press (s : String) : Env × Msg :=
  (testEnv 0 (Except.ok testKey), Msg.KeyMsg (str s))

/-- The key presses that type a text, one key per character. -/
def typeText (s : String) : List (Env × Msg) :=
  s.toList.map fun ch => press (String.singleton ch)

/-- The enrollment of the example account: "a", the name, confirm, the
issuer, confirm. -/
def enrollTrace : List (Env × Msg) :=
  [press "a"] ++ typeText "alice@example.com" ++ [press "enter"] ++ typeText "GitHub" ++
    [press "enter"]

/-- The state in EnteringIssuer (step 2) just before the confirm of the
example enrollment. -/
def issuerEntered : model :=
  { initModel with
    newAccountName := str "alice@example.com", newAccountIssuer := str "GitHub",
    status := str "Enter issuer name (e.g., Google, GitHub)", step := 2 }

/-- The state in Provisioning (step 3) after the example enrollment. -/
def enrolled : model :=
  { issuerEntered with
    accounts := [{ Name := str "alice@example.com", Issuer := str "GitHub",
                   Secret := testKey.Secret, CurrentCode := str "123456" }],
    selectedIdx := 0, qrCode := testKey.URL, validCode := str "123456",
    status := str "Scan the QR code with your authenticator app", step := 3 }

/-- The state in EnteringName (step 1) right after "a" was pressed in the
initial state. -/
def nameEntry : model :=
  { initModel with status := str "Enter account name (e.g., user@example.com)", step := 1 }

/-- The example enrollment followed by a visit to Verifying that is left with
cancel after "1" and "2" were typed. -/
def cancelledVisit : List (Env × Msg) :=
  enrollTrace ++ [press "enter", press "1", press "2", press "esc"]

/-- The state in Listing (step 0) after `cancelledVisit`. -/
def staleListing : model :=
  { enrolled with inputCode := str "12", status := [], step := 0 }

/-! ## Auxiliary facts -/

theorem index_eq_some_of_bounds {α : Type} (xs : List α) (i : Int)
    (h0 : 0 ≤ i) (h1 : i < (xs.length : Int)) : ∃ a, index xs i = some a := by
  have hlt : i.toNat < xs.length := by omega
  refine ⟨xs[i.toNat], ?_⟩
  unfold index
  rw [if_neg (by omega)]
  exact List.getElem?_eq_getElem hlt

theorem bounds_of_index_eq_some {α : Type} (xs : List α) (i : Int) (a : α)
    (h : index xs i = some a) : 0 ≤ i ∧ i < (xs.length : Int) := by
  unfold index at h
  split at h
  · simp at h
  · have hlt : i.toNat < xs.length := (List.getElem?_eq_some_iff.mp h).1
    omega

theorem refreshAll_length (env : Env) (xs : List Account) (k : Nat) :
    (refreshAll env xs k).length = xs.length := by
  induction xs generalizing k with
  | nil => rfl
  | cons a rest ih => simp [refreshAll, ih]

theorem refreshAll_identity (env : Env) (xs : List Account) (k : Nat) :
    (refreshAll env xs k).map identity = xs.map identity := by
  induction xs generalizing k with
  | nil => rfl
  | cons a rest ih =>
    simp only [refreshAll, List.map_cons, ih]
    split <;> rfl

@[simp] theorem handleTyping_accounts (m : model) (s : Str) :
    (handleTyping m s).accounts = m.accounts := by
  unfold handleTyping
  split_ifs <;> rfl

@[simp] theorem handleTyping_selectedIdx (m : model) (s : Str) :
    (handleTyping m s).selectedIdx = m.selectedIdx := by
  unfold handleTyping
  split_ifs <;> rfl

@[simp] theorem handleTyping_step (m : model) (s : Str) :
    (handleTyping m s).step = m.step := by
  unfold handleTyping
  split_ifs <;> rfl

@[simp] theorem handleBackspace_accounts (m : model) :
    (handleBackspace m).accounts = m.accounts := by
  unfold handleBackspace
  split_ifs <;> rfl

@[simp] theorem handleBackspace_selectedIdx (m : model) :
    (handleBackspace m).selectedIdx = m.selectedIdx := by
  unfold handleBackspace
  split_ifs <;> rfl

@[simp] theorem handleBackspace_step (m : model) :
    (handleBackspace m).step = m.step := by
  unfold handleBackspace
  split_ifs <;> rfl

theorem updateKey_accounts (m : model) (s : Str) :
    (updateKey m s).accounts = m.accounts := by
  unfold updateKey
  split_ifs <;> simp

theorem updateKey_step (m : model) (s : Str) :
    (updateKey m s).step = m.step ∨ (m.step = 0 ∧ (updateKey m s).step = 1) := by
  unfold updateKey
  split_ifs <;> simp [*]

theorem updateKey_selValid (m : model) (s : Str) (h : SelValid m) :
    SelValid (updateKey m s) := by
  intro hne
  rw [updateKey_accounts] at hne
  have hb := h hne
  unfold SelInBounds at hb ⊢
  rw [updateKey_accounts]
  unfold updateKey
  split_ifs <;>
    (try simp only [handleTyping_selectedIdx, handleBackspace_selectedIdx]) <;> omega

theorem setCurrentCode_append_last (xs : List Account) (a : Account) (code : Str) :
    setCurrentCode (xs ++ [a]) (((xs ++ [a]).length : Int) - 1) code
      = some (xs ++ [{ a with CurrentCode := code }]) := by
  have hi : ((xs ++ [a]).length : Int) - 1 = (xs.length : Int) := by simp
  have hn : ¬ ((xs.length : Int) < 0) := by omega
  rw [hi]
  unfold setCurrentCode index
  simp [hn]

/-- What a confirm that returns can do to the list, the selection and the
step: either it keeps list and selection and moves along the workflow, or it
is the enrollment of one account. -/
theorem handleEnter_cases (env : Env) (m m2 : model) (c : Cmd)
    (h : handleEnter env m = some (m2, c)) :
    (m2.accounts = m.accounts ∧ m2.selectedIdx = m.selectedIdx ∧
      (m2.step = m.step ∨ (m.step = 0 ∧ m.accounts ≠ [] ∧ m2.step = 4) ∨
        (m.step = 1 ∧ m2.step = 2) ∨ (m.step = 3 ∧ m2.step = 4))) ∨
    (∃ a : Account, m2.accounts = m.accounts ++ [a] ∧
      m2.selectedIdx = (m.accounts.length : Int) ∧ m2.step = 3 ∧
      a.Name = m.newAccountName ∧ a.Issuer = m.newAccountIssuer) := by
  unfold handleEnter at h
  split_ifs at h with h0 hlen h1 hname h2 hiss h3 h4
  · -- step 0, non-empty list
    simp only at h
    split at h
    · simp at h
    · have hne : m.accounts ≠ [] := by
        intro he; rw [he] at hlen; simp at hlen
      split_ifs at h <;>
        (simp only [Option.some.injEq, Prod.mk.injEq] at h
         obtain ⟨rfl, _⟩ := h
         exact Or.inl ⟨rfl, rfl, Or.inr (Or.inl ⟨h0, hne, rfl⟩)⟩)
  · simp only [Option.some.injEq, Prod.mk.injEq] at h
    obtain ⟨rfl, _⟩ := h
    exact Or.inl ⟨rfl, rfl, Or.inl rfl⟩
  · simp only [Option.some.injEq, Prod.mk.injEq] at h
    obtain ⟨rfl, _⟩ := h
    exact Or.inl ⟨rfl, rfl, Or.inr (Or.inr (Or.inl ⟨h1, rfl⟩))⟩
  · simp only [Option.some.injEq, Prod.mk.injEq] at h
    obtain ⟨rfl, _⟩ := h
    exact Or.inl ⟨rfl, rfl, Or.inl rfl⟩
  · -- step 2, non-empty issuer
    split at h
    · simp only [Option.some.injEq, Prod.mk.injEq] at h
      obtain ⟨rfl, _⟩ := h
      exact Or.inl ⟨rfl, rfl, Or.inl rfl⟩
    · simp only [setCurrentCode_append_last, Option.some.injEq, Prod.mk.injEq] at h
      obtain ⟨rfl, _⟩ := h
      refine Or.inr ⟨_, rfl, ?_, rfl, rfl, rfl⟩
      simp
  · simp only [Option.some.injEq, Prod.mk.injEq] at h
    obtain ⟨rfl, _⟩ := h
    exact Or.inl ⟨rfl, rfl, Or.inl rfl⟩
  · simp only [Option.some.injEq, Prod.mk.injEq] at h
    obtain ⟨rfl, _⟩ := h
    exact Or.inl ⟨rfl, rfl, Or.inr (Or.inr (Or.inr ⟨h3, rfl⟩))⟩
  · split at h
    · simp at h
    · simp only [Option.some.injEq, Prod.mk.injEq] at h
      obtain ⟨rfl, _⟩ := h
      exact Or.inl ⟨rfl, rfl, Or.inl rfl⟩
  · simp only [Option.some.injEq, Prod.mk.injEq] at h
    obtain ⟨rfl, _⟩ := h
    exact Or.inl ⟨rfl, rfl, Or.inl rfl⟩

theorem updateTick_cases (env : Env) (m m2 : model) (c : Cmd)
    (h : updateTick env m = some (m2, c)) :
    m2.accounts = refreshAll env m.accounts 1 ∧ m2.selectedIdx = m.selectedIdx ∧
      m2.step = m.step ∧ m2.countdown = countdownSeconds (env.now 0) := by
  unfold updateTick at h
  simp only at h
  split_ifs at h
  · split at h
    · simp at h
    · split_ifs at h <;>
        (simp only [Option.some.injEq, Prod.mk.injEq] at h
         obtain ⟨rfl, _⟩ := h
         exact ⟨rfl, rfl, rfl, rfl⟩)
  · simp only [Option.some.injEq, Prod.mk.injEq] at h
    obtain ⟨rfl, _⟩ := h
    exact ⟨rfl, rfl, rfl, rfl⟩

theorem selValid_of_same (m m2 : model) (ha : m2.accounts.map identity = m.accounts.map identity)
    (hs : m2.selectedIdx = m.selectedIdx) (h : SelValid m) : SelValid m2 := by
  have hlen : m2.accounts.length = m.accounts.length := by
    simpa using congrArg List.length ha
  intro hne
  have hne1 : m.accounts ≠ [] := by
    intro he
    rw [he] at hlen
    exact hne (List.length_eq_zero.mp hlen)
  have hb := h hne1
  unfold SelInBounds at hb ⊢
  rw [hs, hlen]
  exact hb

theorem Update_cases (env : Env) (m m2 : model) (msg : Msg) (c : Cmd)
    (h : Update env m msg = some (m2, c)) : KeepsAccounts m m2 ∨ AddsAccount m m2 := by
  cases msg with
  | KeyMsg s =>
    simp only [Update] at h
    split_ifs at h with hq hpos he
    · simp only [Option.some.injEq, Prod.mk.injEq] at h
      obtain ⟨rfl, _⟩ := h
      exact Or.inl ⟨rfl, selValid_of_same _ _ rfl rfl, Or.inr (Or.inl rfl)⟩
    · simp only [Option.some.injEq, Prod.mk.injEq] at h
      obtain ⟨rfl, _⟩ := h
      exact Or.inl ⟨rfl, id, Or.inl rfl⟩
    · rcases handleEnter_cases env m m2 c h with ⟨ha, hs, hst⟩ | ⟨a, ha, hs, hst, _⟩
      · refine Or.inl ⟨by rw [ha], selValid_of_same _ _ (by rw [ha]) hs, ?_⟩
        rcases hst with h1 | ⟨_, h1, h2⟩ | ⟨_, h2⟩ | ⟨h1, h2⟩
        · exact Or.inl h1
        · exact Or.inr (Or.inr (Or.inr (Or.inr ⟨h2, Or.inr h1⟩)))
        · exact Or.inr (Or.inr (Or.inr (Or.inl h2)))
        · exact Or.inr (Or.inr (Or.inr (Or.inr ⟨h2, Or.inl h1⟩)))
      · exact Or.inr ⟨a, ha, hs, hst⟩
    · simp only [Option.some.injEq, Prod.mk.injEq] at h
      obtain ⟨rfl, _⟩ := h
      refine Or.inl ⟨by rw [updateKey_accounts], updateKey_selValid m s, ?_⟩
      rcases updateKey_step m s with h1 | ⟨_, h1⟩
      · exact Or.inl h1
      · exact Or.inr (Or.inr (Or.inl h1))
  | tickMsg =>
    simp only [Update] at h
    obtain ⟨ha, hs, hst, _⟩ := updateTick_cases env m m2 c h
    have hid : m2.accounts.map identity = m.accounts.map identity := by
      rw [ha, refreshAll_identity]
    exact Or.inl ⟨hid, selValid_of_same _ _ hid hs, Or.inl hst⟩
  | verifyMsg b =>
    simp only [Update, Option.some.injEq, Prod.mk.injEq] at h
    obtain ⟨rfl, _⟩ := h
    exact Or.inl ⟨rfl, selValid_of_same _ _ rfl rfl, Or.inl rfl⟩
  | other =>
    simp only [Update, Option.some.injEq, Prod.mk.injEq] at h
    obtain ⟨rfl, _⟩ := h
    exact Or.inl ⟨rfl, id, Or.inl rfl⟩

theorem accounts_ne_nil_of_identity (m m2 : model)
    (ha : m2.accounts.map identity = m.accounts.map identity) (h : m.accounts ≠ []) :
    m2.accounts ≠ [] := by
  intro he
  rw [he] at ha
  exact h (List.map_eq_nil_iff.mp ha.symm)

theorem Update_selValid (env : Env) (m m2 : model) (msg : Msg) (c : Cmd)
    (hv : SelValid m) (h : Update env m msg = some (m2, c)) : SelValid m2 := by
  rcases Update_cases env m m2 msg c h with ⟨_, hk, _⟩ | ⟨a, ha, hs, _⟩
  · exact hk hv
  · intro _
    unfold SelInBounds
    rw [hs, ha]
    simp

theorem Update_inv (env : Env) (m m2 : model) (msg : Msg) (c : Cmd)
    (hi : Inv m) (h : Update env m msg = some (m2, c)) : Inv m2 := by
  refine ⟨Update_selValid env m m2 msg c hi.1 h, ?_⟩
  rcases Update_cases env m m2 msg c h with ⟨hid, _, hst⟩ | ⟨a, ha, _, _⟩
  · intro h34
    rcases hst with h1 | h1 | h1 | h1 | ⟨_, h1 | h1⟩
    · exact accounts_ne_nil_of_identity m m2 hid (hi.2 (h1 ▸ h34))
    · omega
    · omega
    · omega
    · exact accounts_ne_nil_of_identity m m2 hid (hi.2 (Or.inl h1))
    · exact accounts_ne_nil_of_identity m m2 hid h1
  · intro _
    rw [ha]
    simp

theorem inv_init : Inv initModel := by
  refine ⟨fun h => absurd rfl h, ?_⟩
  intro h
  simp [initModel] at h

theorem reachable_inv (m : model) (h : Reachable m) : Inv m := by
  induction h with
  | init => exact inv_init
  | step env m msg m2 c _ hu ih => exact Update_inv env m m2 msg c ih hu

theorem handleEnter_isSome (env : Env) (m : model) (hi : Inv m) :
    (handleEnter env m).isSome = true := by
  unfold handleEnter
  split_ifs with h0 hlen h1 hname h2 hiss h3 h4
  · have hne : m.accounts ≠ [] := by
      intro he; rw [he] at hlen; simp at hlen
    obtain ⟨a, ha⟩ := index_eq_some_of_bounds m.accounts m.selectedIdx (hi.1 hne).1 (hi.1 hne).2
    simp only [ha]
    split_ifs <;> rfl
  · rfl
  · rfl
  · rfl
  · split
    · rfl
    · simp only [setCurrentCode_append_last]
      rfl
  · rfl
  · rfl
  · have hne := hi.2 (Or.inr h4)
    obtain ⟨a, ha⟩ := index_eq_some_of_bounds m.accounts m.selectedIdx (hi.1 hne).1 (hi.1 hne).2
    simp only [ha]
    rfl
  · rfl

theorem updateTick_isSome (env : Env) (m : model) (hi : Inv m) :
    (updateTick env m).isSome = true := by
  unfold updateTick
  simp only
  split_ifs with h34
  · have hne := hi.2 h34
    have hb := hi.1 hne
    obtain ⟨a, ha⟩ := index_eq_some_of_bounds (refreshAll env m.accounts 1) m.selectedIdx
      hb.1 (by rw [refreshAll_length]; exact hb.2)
    simp only [ha]
    split_ifs <;> rfl
  · rfl

theorem Update_isSome (env : Env) (m : model) (msg : Msg) (hi : Inv m) :
    (Update env m msg).isSome = true := by
  cases msg with
  | KeyMsg s =>
    simp only [Update]
    split_ifs
    · rfl
    · rfl
    · exact handleEnter_isSome env m hi
    · rfl
  | tickMsg => exact updateTick_isSome env m hi
  | verifyMsg b => rfl
  | other => rfl

theorem reachable_run (m : model) (evs : List (Env × Msg)) (m2 : model)
    (hm : Reachable m) (h : run m evs = some m2) : Reachable m2 := by
  induction evs generalizing m with
  | nil =>
    simp only [run, Option.some.injEq] at h
    exact h ▸ hm
  | cons e rest ih =>
    obtain ⟨env, msg⟩ := e
    simp only [run] at h
    split at h
    · simp at h
    · next m1 c hu => exact ih m1 (Reachable.step env m msg m1 c hm hu) h

theorem run_enrollTrace : run initModel enrollTrace = some enrolled := by decide

theorem reachable_enrolled : Reachable enrolled :=
  reachable_run initModel enrollTrace enrolled Reachable.init run_enrollTrace

theorem updateKey_eq_handleTyping (m : model) (s : Str) (hlen : s.length = 1)
    (hj : s ≠ str "j") (hstep : m.step ≠ 0) : updateKey m s = handleTyping m s := by
  have hup : s ≠ str "up" := by
    intro h; rw [h] at hlen; revert hlen; decide
  have hdown : s ≠ str "down" := by
    intro h; rw [h] at hlen; revert hlen; decide
  have hbs : s ≠ str "backspace" := by
    intro h; rw [h] at hlen; revert hlen; decide
  unfold updateKey
  simp only [if_neg hup, if_neg hbs, if_neg hstep, hdown, hj, false_or, if_false]
  split_ifs <;> rfl

theorem handleEnter_inputCode (env : Env) (m m2 : model) (c : Cmd)
    (h : handleEnter env m = some (m2, c)) : m2.inputCode = m.inputCode := by
  unfold handleEnter at h
  split_ifs at h
  · simp only at h
    split at h
    · simp at h
    · split_ifs at h <;>
        (simp only [Option.some.injEq, Prod.mk.injEq] at h
         obtain ⟨rfl, _⟩ := h
         rfl)
  · simp only [Option.some.injEq, Prod.mk.injEq] at h
    obtain ⟨rfl, _⟩ := h
    rfl
  · simp only [Option.some.injEq, Prod.mk.injEq] at h
    obtain ⟨rfl, _⟩ := h
    rfl
  · simp only [Option.some.injEq, Prod.mk.injEq] at h
    obtain ⟨rfl, _⟩ := h
    rfl
  · split at h
    · simp only [Option.some.injEq, Prod.mk.injEq] at h
      obtain ⟨rfl, _⟩ := h
      rfl
    · simp only [setCurrentCode_append_last, Option.some.injEq, Prod.mk.injEq] at h
      obtain ⟨rfl, _⟩ := h
      rfl
  · simp only [Option.some.injEq, Prod.mk.injEq] at h
    obtain ⟨rfl, _⟩ := h
    rfl
  · simp only [Option.some.injEq, Prod.mk.injEq] at h
    obtain ⟨rfl, _⟩ := h
    rfl
  · split at h
    · simp at h
    · simp only [Option.some.injEq, Prod.mk.injEq] at h
      obtain ⟨rfl, _⟩ := h
      rfl
  · simp only [Option.some.injEq, Prod.mk.injEq] at h
    obtain ⟨rfl, _⟩ := h
    rfl

theorem countdownSeconds_of_nonneg (t : Int) (ht : 0 ≤ t) :
    countdownSeconds t = 30 - t % 30 := by
  unfold countdownSeconds
  rw [Int.tmod_eq_emod ht (by decide)]

/-! ## The workflow properties -/

/-- C1: in every state reachable from the initial model no event makes Update
panic, and every access accounts[selectedIdx] is within bounds: at a tick
while step is 3 or 4 (on the refreshed list), at confirm in Listing with a
non-empty list, and at confirm in Verifying; a reachable state with step 3 or
4 has a non-empty account list. -/
theorem selected_access_in_bounds (m : model) (h : Reachable m) :
    (∀ (env : Env) (msg : Msg), ∃ m2 c, Update env m msg = some (m2, c)) ∧
    ((m.step = 3 ∨ m.step = 4) → m.accounts ≠ []) ∧
    ((m.step = 3 ∨ m.step = 4) → ∀ env : Env,
        ∃ a, index (refreshAll env m.accounts 1) m.selectedIdx = some a) ∧
    (m.step = 0 → m.accounts.length > 0 → ∃ a, index m.accounts m.selectedIdx = some a) ∧
    (m.step = 4 → ∃ a, index m.accounts m.selectedIdx = some a) := by
  have hi := reachable_inv m h
  refine ⟨?_, hi.2, ?_, ?_, ?_⟩
  · intro env msg
    have hs := Update_isSome env m msg hi
    obtain ⟨⟨m2, c⟩, hr⟩ := Option.isSome_iff_exists.mp hs
    exact ⟨m2, c, hr⟩
  · intro h34 env
    have hb := hi.1 (hi.2 h34)
    exact index_eq_some_of_bounds _ _ hb.1 (by rw [refreshAll_length]; exact hb.2)
  · intro _ hlen
    have hne : m.accounts ≠ [] := by
      intro he; rw [he] at hlen; simp at hlen
    exact index_eq_some_of_bounds _ _ (hi.1 hne).1 (hi.1 hne).2
  · intro h4
    have hb := hi.1 (hi.2 (Or.inr h4))
    exact index_eq_some_of_bounds _ _ hb.1 hb.2

theorem selected_access_in_bounds_witness :
    Reachable enrolled ∧
    ((∀ (env : Env) (msg : Msg), ∃ m2 c, Update env enrolled msg = some (m2, c)) ∧
    ((enrolled.step = 3 ∨ enrolled.step = 4) → enrolled.accounts ≠ []) ∧
    ((enrolled.step = 3 ∨ enrolled.step = 4) → ∀ env : Env,
        ∃ a, index (refreshAll env enrolled.accounts 1) enrolled.selectedIdx = some a) ∧
    (enrolled.step = 0 → enrolled.accounts.length > 0 →
        ∃ a, index enrolled.accounts enrolled.selectedIdx = some a) ∧
    (enrolled.step = 4 → ∃ a, index enrolled.accounts enrolled.selectedIdx = some a)) :=
  ⟨reachable_enrolled, selected_access_in_bounds enrolled reachable_enrolled⟩

/-- C2: in every reachable state a non-empty account list has
0 <= selectedIdx < len(accounts), and every event (up, down, k, j, confirm
with or without account creation, cancel, typing, backspace, tick, verify
result) that Update handles preserves this property of a model. -/
theorem selectedIdx_valid :
    (∀ m : model, Reachable m →
      (m.accounts ≠ [] → 0 ≤ m.selectedIdx ∧ m.selectedIdx < (m.accounts.length : Int))) ∧
    (∀ (env : Env) (m : model) (msg : Msg) (m2 : model) (c : Cmd),
      SelValid m → Update env m msg = some (m2, c) → SelValid m2) :=
  ⟨fun m h => (reachable_inv m h).1, fun env m msg m2 c hv h => Update_selValid env m m2 msg c hv h⟩

theorem selectedIdx_valid_witness :
    (enrolled.accounts ≠ [] →
      0 ≤ enrolled.selectedIdx ∧ enrolled.selectedIdx < (enrolled.accounts.length : Int)) ∧
    SelValid { enrolled with selectedIdx := 0, step := 0, status := [] } :=
  ⟨selectedIdx_valid.1 enrolled reachable_enrolled,
   selectedIdx_valid.2 (testEnv 0 (Except.ok testKey))
     { enrolled with step := 0, status := [] } (Msg.KeyMsg (str "down"))
     { enrolled with selectedIdx := 0, step := 0, status := [] } Cmd.nil
     (fun _ => ⟨by decide, by decide⟩) (by decide)⟩

/-- C3: whenever Update returns, the account list of the old model projected
to (Name, Issuer, Secret) is an initial segment of the projected account list
of the new model; a tick keeps the length of the list and the projection, so it
changes at most the CurrentCode fields. -/
theorem accounts_identity_preserved (env : Env) (m : model) (msg : Msg) (m2 : model) (c : Cmd)
    (h : Update env m msg = some (m2, c)) :
    (∃ added, m2.accounts.map identity = m.accounts.map identity ++ added) ∧
    (msg = Msg.tickMsg →
      m2.accounts.length = m.accounts.length ∧
      m2.accounts.map identity = m.accounts.map identity) := by
  constructor
  · rcases Update_cases env m m2 msg c h with ⟨hid, _, _⟩ | ⟨a, ha, _, _⟩
    · exact ⟨[], by rw [hid, List.append_nil]⟩
    · exact ⟨[identity a], by rw [ha, List.map_append]; rfl⟩
  · intro hmsg
    subst hmsg
    simp only [Update] at h
    obtain ⟨ha, _, _, _⟩ := updateTick_cases env m m2 c h
    rw [ha]
    exact ⟨refreshAll_length env m.accounts 1, refreshAll_identity env m.accounts 1⟩

theorem accounts_identity_preserved_witness :
    (∃ added, enrolled.accounts.map identity = issuerEntered.accounts.map identity ++ added) ∧
    (Msg.KeyMsg (str "enter") = Msg.tickMsg →
      enrolled.accounts.length = issuerEntered.accounts.length ∧
      enrolled.accounts.map identity = issuerEntered.accounts.map identity) :=
  accounts_identity_preserved (testEnv 0 (Except.ok testKey)) issuerEntered
    (Msg.KeyMsg (str "enter")) enrolled Cmd.nil (by decide)

/-- C4: in EnteringIssuer (step 2) with a non-empty issuer buffer, when
totp.Generate succeeds with a key, confirm returns the state whose account list
is the old list with exactly one account appended (Name the name buffer,
Issuer the issuer buffer, Secret the secret of the key), whose selectedIdx is
the old length, whose step is 3 and whose qrCode is the URL of the key. -/
theorem confirm_issuer_enrolls (env : Env) (m : model) (key : Key)
    (hstep : m.step = 2) (hiss : m.newAccountIssuer ≠ [])
    (hgen : env.Generate { Issuer := m.newAccountIssuer, AccountName := m.newAccountName,
                           SecretSize := 16, Algorithm := Algorithm.AlgorithmSHA1,
                           Digits := 6, Period := 30 } = Except.ok key) :
    ∃ m2, Update env m (Msg.KeyMsg (str "enter")) = some (m2, Cmd.nil) ∧
      m2.accounts = m.accounts ++
        [{ Name := m.newAccountName, Issuer := m.newAccountIssuer, Secret := key.Secret,
           CurrentCode := (env.GenerateCode key.Secret (env.now 0)).1 }] ∧
      m2.selectedIdx = (m.accounts.length : Int) ∧ m2.step = 3 ∧ m2.qrCode = key.URL := by
  have hq : ¬ (str "enter" = str "q" ∨ str "enter" = str "esc") := by decide
  simp only [Update, if_neg hq, if_true]
  unfold handleEnter
  have h0 : ¬ m.step = 0 := by omega
  have h1 : ¬ m.step = 1 := by omega
  simp only [if_neg h0, if_neg h1, if_pos hstep, if_pos hiss, hgen,
    setCurrentCode_append_last]
  refine ⟨_, rfl, rfl, ?_, rfl, rfl⟩
  simp

theorem confirm_issuer_enrolls_witness :
    ∃ m2, Update (testEnv 0 (Except.ok testKey)) issuerEntered (Msg.KeyMsg (str "enter"))
        = some (m2, Cmd.nil) ∧
      m2.accounts = issuerEntered.accounts ++
        [{ Name := str "alice@example.com", Issuer := str "GitHub", Secret := testKey.Secret,
           CurrentCode := str "123456" }] ∧
      m2.selectedIdx = (issuerEntered.accounts.length : Int) ∧ m2.step = 3 ∧
      m2.qrCode = testKey.URL :=
  confirm_issuer_enrolls (testEnv 0 (Except.ok testKey)) issuerEntered testKey
    (by decide) (by decide) rfl

/-- C5: in EnteringIssuer (step 2) with a non-empty issuer buffer, when
totp.Generate fails, confirm returns the model with only the status changed:
the status is "Error generating secret: " followed by the error text, and the
step, the account list, selectedIdx, the buffers and qrCode are unchanged; no
command is issued. -/
theorem confirm_issuer_generation_error (env : Env) (m : model) (err : Str)
    (hstep : m.step = 2) (hiss : m.newAccountIssuer ≠ [])
    (hgen : env.Generate { Issuer := m.newAccountIssuer, AccountName := m.newAccountName,
                           SecretSize := 16, Algorithm := Algorithm.AlgorithmSHA1,
                           Digits := 6, Period := 30 } = Except.error err) :
    Update env m (Msg.KeyMsg (str "enter"))
      = some ({ m with status := str "Error generating secret: " ++ err }, Cmd.nil) := by
  have hq : ¬ (str "enter" = str "q" ∨ str "enter" = str "esc") := by decide
  simp only [Update, if_neg hq, if_true]
  unfold handleEnter
  have h0 : ¬ m.step = 0 := by omega
  have h1 : ¬ m.step = 1 := by omega
  simp only [if_neg h0, if_neg h1, if_pos hstep, if_pos hiss, hgen]

theorem confirm_issuer_generation_error_witness :
    Update (testEnv 0 (Except.error (str "EOF"))) issuerEntered (Msg.KeyMsg (str "enter"))
      = some ({ issuerEntered with status := str "Error generating secret: " ++ str "EOF" },
              Cmd.nil) :=
  confirm_issuer_generation_error (testEnv 0 (Except.error (str "EOF"))) issuerEntered
    (str "EOF") (by decide) (by decide) rfl

/-- C6, the key "q" against the claim as stated: "q" is a single printable
character, yet in EnteringName its key event leaves the name buffer as it was
and moves the workflow to Listing (step 0). -/
theorem typing_q_cancels :
    (str "q").length = 1 ∧ nameEntry.step = 1 ∧
    Update (testEnv 0 (Except.ok testKey)) nameEntry (Msg.KeyMsg (str "q"))
      = some ({ nameEntry with step := 0, status := [] }, Cmd.nil) ∧
    ({ nameEntry with step := 0, status := [] } : model).step ≠ nameEntry.step ∧
    ({ nameEntry with step := 0, status := [] } : model).newAccountName
      ≠ nameEntry.newAccountName ++ str "q" := by
  decide

/-- The key "j" in EnteringName: its case of the key switch acts only in
step 0 and, unlike the cases of "a" and "k", has no typing branch, so the
model comes back unchanged. -/
theorem key_j_dropped_in_edit_mode :
    Update (testEnv 0 (Except.ok testKey)) nameEntry (Msg.KeyMsg (str "j"))
      = some (nameEntry, Cmd.nil) := by
  decide

/-- A character of two bytes in EnteringName: handleTyping returns at its
length test and the model comes back unchanged. -/
theorem two_byte_key_dropped :
    (str "é").length = 2 ∧
    Update (testEnv 0 (Except.ok testKey)) nameEntry (Msg.KeyMsg (str "é"))
      = some (nameEntry, Cmd.nil) := by
  decide

/-- C6 as amended: for every key whose string is a single byte other than "q"
and "j", and every model in step 1, 2 or 4, Update returns the model with the
key appended to the active buffer (newAccountName in step 1, newAccountIssuer
in step 2, inputCode in step 4 when it holds fewer than 6 bytes; a full
inputCode is left as it is), issues no command and keeps the step. -/
theorem typing_appends (env : Env) (m : model) (s : Str)
    (hlen : s.length = 1) (hq : s ≠ str "q") (hj : s ≠ str "j")
    (hstep : m.step = 1 ∨ m.step = 2 ∨ m.step = 4) :
    ∃ m2, Update env m (Msg.KeyMsg s) = some (m2, Cmd.nil) ∧ m2.step = m.step ∧
      (m.step = 1 → m2 = { m with newAccountName := m.newAccountName ++ s }) ∧
      (m.step = 2 → m2 = { m with newAccountIssuer := m.newAccountIssuer ++ s }) ∧
      (m.step = 4 → m.inputCode.length < 6 → m2 = { m with inputCode := m.inputCode ++ s }) ∧
      (m.step = 4 → ¬ m.inputCode.length < 6 → m2 = m) := by
  have hesc : s ≠ str "esc" := by
    intro h; rw [h] at hlen; revert hlen; decide
  have hent : s ≠ str "enter" := by
    intro h; rw [h] at hlen; revert hlen; decide
  have h0 : m.step ≠ 0 := by omega
  refine ⟨handleTyping m s, ?_, handleTyping_step m s, ?_, ?_, ?_, ?_⟩
  · simp only [Update, hq, hesc, hent, false_or, if_false,
      updateKey_eq_handleTyping m s hlen hj h0]
  · intro h1
    unfold handleTyping
    simp [hlen, h1]
  · intro h2
    have h1 : ¬ m.step = 1 := by omega
    unfold handleTyping
    simp [hlen, h1, h2]
  · intro h4 hcap
    have h1 : ¬ m.step = 1 := by omega
    have h2 : ¬ m.step = 2 := by omega
    unfold handleTyping
    simp [hlen, h1, h2, h4, hcap]
  · intro h4 hcap
    have h1 : ¬ m.step = 1 := by omega
    have h2 : ¬ m.step = 2 := by omega
    unfold handleTyping
    rw [if_neg (by simp [hlen]), if_neg h1, if_neg h2, if_pos h4, if_neg hcap]

theorem typing_appends_witness :
    ∃ m2, Update (testEnv 0 (Except.ok testKey)) nameEntry (Msg.KeyMsg (str "x"))
        = some (m2, Cmd.nil) ∧ m2.step = nameEntry.step ∧
      (nameEntry.step = 1 →
        m2 = { nameEntry with newAccountName := nameEntry.newAccountName ++ str "x" }) ∧
      (nameEntry.step = 2 →
        m2 = { nameEntry with newAccountIssuer := nameEntry.newAccountIssuer ++ str "x" }) ∧
      (nameEntry.step = 4 → nameEntry.inputCode.length < 6 →
        m2 = { nameEntry with inputCode := nameEntry.inputCode ++ str "x" }) ∧
      (nameEntry.step = 4 → ¬ nameEntry.inputCode.length < 6 → m2 = nameEntry) :=
  typing_appends (testEnv 0 (Except.ok testKey)) nameEntry (str "x")
    (by decide) (by decide) (by decide) (Or.inl (by decide))

/-- C7, a run against the claim as stated: after the example enrollment, a
visit to Verifying in which "1" and "2" are typed and which is left with
cancel ends in Listing with a non-empty account list; the next confirm moves
the workflow into Verifying (step 4) with inputCode still "12", not empty. -/
theorem confirm_keeps_stale_code :
    run initModel cancelledVisit = some staleListing ∧
    staleListing.step = 0 ∧ staleListing.accounts ≠ [] ∧
    Update (testEnv 0 (Except.ok testKey)) staleListing (Msg.KeyMsg (str "enter"))
      = some ({ staleListing with
                  step := 4,
                  status := str "Enter the 6-digit code from your authenticator app",
                  validCode := str "123456" }, Cmd.nil) ∧
    staleListing.inputCode = str "12" ∧ str "12" ≠ [] := by
  decide

/-- C7 as amended: whenever a confirm event moves the workflow into Verifying
(from Listing with a non-empty account list, or from Provisioning), the
resulting state has step 4 and the inputCode of the state before: confirm does
not clear it, so it is empty afterwards exactly when it was empty before. -/
theorem confirm_into_verifying_keeps_inputCode (env : Env) (m m2 : model) (c : Cmd)
    (hfrom : (m.step = 0 ∧ m.accounts.length > 0) ∨ m.step = 3)
    (h : Update env m (Msg.KeyMsg (str "enter")) = some (m2, c)) :
    m2.step = 4 ∧ m2.inputCode = m.inputCode ∧ (m2.inputCode = [] ↔ m.inputCode = []) := by
  have hq : ¬ (str "enter" = str "q" ∨ str "enter" = str "esc") := by decide
  simp only [Update, if_neg hq, if_true] at h
  have hin := handleEnter_inputCode env m m2 c h
  refine ⟨?_, hin, by rw [hin]⟩
  unfold handleEnter at h
  rcases hfrom with ⟨h0, hlen⟩ | h3
  · simp only [if_pos h0, if_pos hlen] at h
    split at h
    · simp at h
    · split_ifs at h <;>
        (simp only [Option.some.injEq, Prod.mk.injEq] at h
         obtain ⟨rfl, _⟩ := h
         rfl)
  · have h0 : ¬ m.step = 0 := by omega
    have h1 : ¬ m.step = 1 := by omega
    have h2 : ¬ m.step = 2 := by omega
    simp only [if_neg h0, if_neg h1, if_neg h2, if_pos h3, Option.some.injEq,
      Prod.mk.injEq] at h
    obtain ⟨rfl, _⟩ := h
    rfl

theorem confirm_into_verifying_keeps_inputCode_witness :
    ({ enrolled with
         step := 4,
         status := str "Enter the 6-digit code from your authenticator app" } : model).step = 4 ∧
    ({ enrolled with
         step := 4,
         status := str "Enter the 6-digit code from your authenticator app" } : model).inputCode
      = enrolled.inputCode ∧
    (({ enrolled with
         step := 4,
         status := str "Enter the 6-digit code from your authenticator app" } : model).inputCode
      = [] ↔ enrolled.inputCode = []) :=
  confirm_into_verifying_keeps_inputCode (testEnv 0 (Except.ok testKey)) enrolled
    { enrolled with
        step := 4, status := str "Enter the 6-digit code from your authenticator app" }
    Cmd.nil (Or.inr (by decide)) (by decide)

/-- C8: when the clock reads a non-negative Unix time t, the countdown of the
state a tick returns is 30 - (t mod 30); it lies in 1..30, equals 30 exactly
when 30 divides t, and is never 0. A tick in a reachable state does return a
state. The expression of the source gives 30 at t = 0, 29 at t = 1, 1 at
t = 29 and 30 at t = 30. -/
theorem countdown_after_tick (env : Env) (m : model) (t : Int)
    (ht : 0 ≤ t) (hnow : env.now 0 = t) :
    (∀ m2 c, Update env m Msg.tickMsg = some (m2, c) →
      m2.countdown = 30 - t % 30 ∧ 1 ≤ m2.countdown ∧ m2.countdown ≤ 30 ∧
      (m2.countdown = 30 ↔ 30 ∣ t) ∧ m2.countdown ≠ 0) ∧
    (Reachable m → ∃ m2 c, Update env m Msg.tickMsg = some (m2, c)) ∧
    (countdownSeconds 0 = 30 ∧ countdownSeconds 1 = 29 ∧ countdownSeconds 29 = 1 ∧
      countdownSeconds 30 = 30) := by
  refine ⟨?_, ?_, by decide⟩
  · intro m2 c h
    simp only [Update] at h
    obtain ⟨_, _, _, hc⟩ := updateTick_cases env m m2 c h
    rw [hnow, countdownSeconds_of_nonneg t ht] at hc
    rw [hc]
    refine ⟨rfl, by omega, by omega, ⟨fun h30 => by omega, fun hd => by omega⟩, by omega⟩
  · intro hr
    have hs := Update_isSome env m Msg.tickMsg (reachable_inv m hr)
    obtain ⟨⟨m2, c⟩, hu⟩ := Option.isSome_iff_exists.mp hs
    exact ⟨m2, c, hu⟩

theorem countdown_after_tick_witness :
    (∀ m2 c, Update (testEnv 29 (Except.ok testKey)) enrolled Msg.tickMsg = some (m2, c) →
      m2.countdown = 30 - 29 % 30 ∧ 1 ≤ m2.countdown ∧ m2.countdown ≤ 30 ∧
      (m2.countdown = 30 ↔ (30 : Int) ∣ 29) ∧ m2.countdown ≠ 0) ∧
    (Reachable enrolled →
      ∃ m2 c, Update (testEnv 29 (Except.ok testKey)) enrolled Msg.tickMsg = some (m2, c)) ∧
    (countdownSeconds 0 = 30 ∧ countdownSeconds 1 = 29 ∧ countdownSeconds 29 = 1 ∧
      countdownSeconds 30 = 30) :=
  countdown_after_tick (testEnv 29 (Except.ok testKey)) enrolled 29 (by decide) rfl

/-- C9: confirm is a no-op when its guard fails: in step 0 with an empty
account list, in step 1 with an empty name buffer and in step 2 with an empty
issuer buffer, handleEnter, and so Update on the key "enter", returns the model
unchanged in every field together with the nil command. -/
theorem confirm_guard_noop (env : Env) (m : model)
    (hg : (m.step = 0 ∧ m.accounts = []) ∨ (m.step = 1 ∧ m.newAccountName = []) ∨
      (m.step = 2 ∧ m.newAccountIssuer = [])) :
    handleEnter env m = some (m, Cmd.nil) ∧
    Update env m (Msg.KeyMsg (str "enter")) = some (m, Cmd.nil) := by
  have hq : ¬ (str "enter" = str "q" ∨ str "enter" = str "esc") := by decide
  have hE : handleEnter env m = some (m, Cmd.nil) := by
    unfold handleEnter
    rcases hg with ⟨h0, he⟩ | ⟨h1, he⟩ | ⟨h2, he⟩
    · simp [h0, he]
    · have h0 : ¬ m.step = 0 := by omega
      simp [h0, h1, he]
    · have h0 : ¬ m.step = 0 := by omega
      have h1 : ¬ m.step = 1 := by omega
      simp [h0, h1, h2, he]
  refine ⟨hE, ?_⟩
  simp only [Update, if_neg hq, if_true]
  exact hE

theorem confirm_guard_noop_witness :
    handleEnter (testEnv 0 (Except.ok testKey)) nameEntry = some (nameEntry, Cmd.nil) ∧
    Update (testEnv 0 (Except.ok testKey)) nameEntry (Msg.KeyMsg (str "enter"))
      = some (nameEntry, Cmd.nil) :=
  confirm_guard_noop (testEnv 0 (Except.ok testKey)) nameEntry
    (Or.inr (Or.inl ⟨by decide, by decide⟩))

/-- C10: for every model and every verification result b, Update on the verify
result returns the model with the status set to the success message when b is
true and to the invalid-code message when b is false and with inputCode
cleared; the step, the account list, selectedIdx and validCode (and every
other field) are unchanged and no command is issued, so a model in step 4
stays in step 4. -/
theorem verify_result_frame (env : Env) (m : model) (b : Bool) :
    ∃ m2, Update env m (Msg.verifyMsg b) = some (m2, Cmd.nil) ∧
      m2 = { m with
               status := if b then str "✅ Code verified successfully!"
                         else str "❌ Invalid code, please try again",
               inputCode := [] } ∧
      m2.status = (if b then str "✅ Code verified successfully!"
                   else str "❌ Invalid code, please try again") ∧
      m2.inputCode = [] ∧ m2.step = m.step ∧ m2.accounts = m.accounts ∧
      m2.selectedIdx = m.selectedIdx ∧ m2.validCode = m.validCode :=
  ⟨_, rfl, rfl, rfl, rfl, rfl, rfl, rfl, rfl⟩

end Hap
